import Mathlib

/-!
Verification of the GitHub data-acquisition layer of BackYourStack
(`src/lib/github.js`): credential resolution, profile resolution,
repository listing with a public/private cache split, file-content
fetching, and the donated-token registry.

Loosely-typed JavaScript values are embedded as follows: a field that may
be absent is an `Option`; a provider field that may carry an arbitrary
JSON value (such as `fork`) is an `Option JsonVal` where `none` models an
absent field.  The JS truthiness test on an optional string
(`if (accessToken)`) is `truthy` below: an absent value and the empty
string are falsy.  String interpolation of a possibly-undefined value
(template literals) is `jsStr`: `undefined` prints as `"undefined"`.
The process-wide cache collaborator (`get`/`set`/`has` over string keys)
is an association list where `set` prepends and `get` returns the most
recent binding.  Remote calls are embedded by passing the provider's
response for each request as an explicit parameter.
-/

/-- A JSON value, used for loosely-typed provider fields (e.g. `fork`).
Strict equality `=== false` holds exactly for `JsonVal.bool false`. -/
inductive JsonVal where
  | bool : Bool → JsonVal
  | null : JsonVal
  | str : String → JsonVal
  | num : Int → JsonVal
deriving DecidableEq, Repr

/-- Provider-returned `owner` object.  `login` may be absent; `url` stands
for the extra provider fields that compaction drops. -/
structure Owner where
  login : Option String
  url : Option String
deriving DecidableEq, Repr

/-- A provider-returned repository record, with the fields the module
touches.  `priv` embeds the JS field `private` (a Lean keyword); `url`
stands for the extra provider fields that compaction drops. -/
structure Repo where
  id : Option Int
  name : Option String
  owner : Option Owner
  full_name : Option String
  default_branch : Option String
  priv : Option Bool
  language : Option String
  fork : Option JsonVal
  url : Option String
deriving DecidableEq, Repr

/-- The owner object after `pick(repo.owner, ['login'])`: always an
object, but `login` is present only when the source had it
(lodash `pick` copies only fields present in the source;
`pick(undefined, ['login'])` is `{}`). -/
structure CompactOwner where
  login : Option String
deriving DecidableEq, Repr

/-- A repository after `compactRepo`: only the picked fields
`id, name, owner, full_name, default_branch, private, language`. -/
structure CompactRepo where
  id : Option Int
  name : Option String
  owner : CompactOwner
  full_name : Option String
  default_branch : Option String
  priv : Option Bool
  language : Option String
deriving DecidableEq, Repr

/-- `compactRepo` from `src/lib/github.js`:
`repo = pick(repo, ['id','name','owner','full_name','default_branch','private','language']);
 repo.owner = pick(repo.owner, ['login']);`
`pick` copies a field only when it is present in the source, so absent
fields stay absent. -/
def compactRepo (repo : Repo) : CompactRepo :=
  { id := repo.id
    name := repo.name
    owner := { login := repo.owner.bind (fun o => o.login) }
    full_name := repo.full_name
    default_branch := repo.default_branch
    priv := repo.priv
    language := repo.language }

/-- JS truthiness of an optional string: `undefined` and `""` are falsy. -/
def truthy : Option String → Bool
  | none => false
  | some s => !s.isEmpty

/-- JS template-literal rendering of a possibly-undefined string. -/
def jsStr : Option String → String
  | none => "undefined"
  | some s => s

/-- The process-wide cache, restricted to the repository-list key space
used by `fetchReposForProfile`. -/
abbrev RepoCache := List (String × List CompactRepo)

/-- `cache.get(key)`: the most recently stored value, if any. -/
def cacheGet (cache : RepoCache) (k : String) : Option (List CompactRepo) :=
  (cache.find? (fun e => e.fst == k)).map (fun e => e.snd)

/-- `cache.set(key, value)`. -/
def cacheSet (cache : RepoCache) (k : String) (v : List CompactRepo) : RepoCache :=
  (k, v) :: cache

/-- `cache.has(key)`. -/
def cacheHas (cache : RepoCache) (k : String) : Bool :=
  (cacheGet cache k).isSome

/-- The fork filter from `fetchReposForProfile`:
`repos.filter(repo => repo.fork === false)`.  Strict equality to the
boolean `false` keeps exactly the records whose `fork` field is present
and is the boolean `false`. -/
def forkFilter (repos : List Repo) : List Repo :=
  repos.filter (fun repo => repo.fork == some (JsonVal.bool false))

/-- The public-subset filter from `fetchReposForProfile`:
`repos.filter(repo => repo.private === false)`. -/
def publicFilter (repos : List CompactRepo) : List CompactRepo :=
  repos.filter (fun repo => repo.priv == some false)

/-- The pagination loop of `fetchReposForProfile`: request page `page`,
append the result, stop as soon as a page is shorter than the requested
page size (100), else request the next page.  `provider` gives the
provider's response to each page request; `reqs` counts page requests
issued.  `fuel` bounds the loop (the JS `while (true)` runs unboundedly);
`none` models a run that exceeds the fuel. -/
def paginateAux (provider : Nat → List Repo) :
    Nat → Nat → List Repo → Nat → Option (List Repo × Nat)
  | 0, _, _, _ => none
  | fuel + 1, page, acc, reqs =>
    let fetched := provider page
    let acc2 := acc ++ fetched
    if fetched.length < 100 then some (acc2, reqs + 1)
    else paginateAux provider fuel (page + 1) acc2 (reqs + 1)

/-- Pagination starting from `page = 1` with `per_page = 100`, as in
`fetchReposForProfile`. -/
def paginate (provider : Nat → List Repo) (fuel : Nat) : Option (List Repo × Nat) :=
  paginateAux provider fuel 1 [] 0

/-- A profile record (`login`, `type`), as consumed by
`fetchReposForProfile` and produced by `fetchProfile`. -/
structure Profile where
  login : String
  type : String
deriving DecidableEq, Repr

/-- The public cache key `profile_repos_<login>`. -/
def pubRepoKey (login : String) : String := "profile_repos_" ++ login

/-- The private cache key `profile_repos_<login>_<accessToken>` (template
literal, so an absent token renders as `undefined`). -/
def privRepoKey (login : String) (accessToken : Option String) : String :=
  "profile_repos_" ++ login ++ "_" ++ jsStr accessToken

/-- `fetchReposForProfile(profile, accessToken)` from `src/lib/github.js`.
The remote listing operation (user- or organisation-scoped, chosen by
`profile.type`) is abstracted by `provider`, the page-indexed response.
Returns the result (`none` when pagination exceeds `fuel`) and the
updated cache.  Key construction, cache-lookup order, fork filtering,
compaction, the private and public cache writes and the final choice of
return value follow the source line by line (the source's intermediate
variables `repos` and `publicRepos` are inlined:
`repos = (forkFilter fetched).map compactRepo`,
`publicRepos = publicFilter repos`; the private write happens before the
public write). -/
def fetchReposForProfile (cache : RepoCache) (profile : Profile)
    (accessToken : Option String) (provider : Nat → List Repo) (fuel : Nat) :
    Option (List CompactRepo) × RepoCache :=
  if truthy accessToken && cacheHas cache (privRepoKey profile.login accessToken) then
    (cacheGet cache (privRepoKey profile.login accessToken), cache)
  else if !truthy accessToken && cacheHas cache (pubRepoKey profile.login) then
    (cacheGet cache (pubRepoKey profile.login), cache)
  else
    match paginate provider fuel with
    | none => (none, cache)
    | some (fetched, _) =>
      (some (if truthy accessToken then (forkFilter fetched).map compactRepo
             else publicFilter ((forkFilter fetched).map compactRepo)),
       cacheSet
         (cacheSet cache (privRepoKey profile.login accessToken)
           ((forkFilter fetched).map compactRepo))
         (pubRepoKey profile.login)
         (publicFilter ((forkFilter fetched).map compactRepo)))

/-- One logical call to `fetchReposForProfile`: the profile, the optional
caller token, and the provider's page-indexed response for this call. -/
structure Call where
  profile : Profile
  token : Option String
  provider : Nat → List Repo
  fuel : Nat

/-- Execute one call against a cache state. -/
def stepCall (cache : RepoCache) (c : Call) : Option (List CompactRepo) × RepoCache :=
  fetchReposForProfile cache c.profile c.token c.provider c.fuel

/-- Thread a sequence of interleaved calls through the shared cache. -/
def runCalls (cache : RepoCache) : List Call → RepoCache
  | [] => cache
  | c :: cs => runCalls (stepCall cache c).snd cs

/-- Token resolution inside `getOctokit`: use the caller-supplied token if
truthy; else, if the donated pool is non-empty, pick the element at index
`Math.floor(Math.random() * length)` — embedded as `rand % length` for an
arbitrary draw `rand`; else fall back to the configured guest token
(`guestToken`, absent when the environment variable is unset).  The token
is attached to the client only if the final value is truthy; the function
is total and `none` (an unauthenticated call) is a normal outcome. -/
def getOctokitToken (accessToken : Option String) (donatedTokens : List String)
    (guestToken : Option String) (rand : Nat) : Option String :=
  let t1 := if truthy accessToken then accessToken
    else if donatedTokens.length > 0 then
      some (donatedTokens.getD (rand % donatedTokens.length) "")
    else accessToken
  let t2 := if truthy t1 then t1 else guestToken
  if truthy t2 then t2 else none

/-- A request issued by `fetchFileFromRepo`: either the authenticated
`repos.getContent` operation, or an unauthenticated GET of a raw-content
URL. -/
inductive FileRequest where
  | octokitContent (owner : Option String) (name : Option String) (path : String)
  | rawFetch (url : String)
deriving DecidableEq, Repr

/-- The raw-content host. -/
def baseRawUrl : String := "https://raw.githubusercontent.com"

/-- `fetchFileFromRepo(repo, path, accessToken)` from `src/lib/github.js`.
If the repository has a falsy `default_branch` or `private === true`, it
issues the authenticated `repos.getContent` call whose base64 payload is
decoded to text — `authResult` stands for that call's outcome (the
decoded text on success; its errors propagate unmodified).  Otherwise it
issues a single GET of `baseRawUrl + relativeUrl`; a 200 response yields
the body as text (`rawBody`), any other status raises
`Can't fetch <path> from <relativeUrl>.` with no retry and no fallback.
Returns the list of requests issued and the outcome. -/
def fetchFileFromRepo (repo : CompactRepo) (path : String)
    (rawStatus : Nat) (rawBody : String) (authResult : Except String String) :
    List FileRequest × Except String String :=
  if !truthy repo.default_branch || repo.priv == some true then
    ([FileRequest.octokitContent repo.owner.login repo.name path], authResult)
  else
    let relativeUrl := "/" ++ jsStr repo.full_name ++ "/" ++ jsStr repo.default_branch
      ++ "/" ++ path
    ([FileRequest.rawFetch (baseRawUrl ++ relativeUrl)],
      if rawStatus = 200 then Except.ok rawBody
      else Except.error ("Can\x27t fetch " ++ path ++ " from " ++ relativeUrl ++ "."))

/-- A remote lookup attempt issued by `fetchProfile`. -/
inductive LookupAttempt where
  | user (login : String)
  | org (login : String)
deriving DecidableEq, Repr

/-- The process-wide cache, restricted to the profile key space used by
`fetchProfile`. -/
abbrev ProfileCache := List (String × Profile)

/-- `cache.get(key)` on the profile key space. -/
def pcGet (cache : ProfileCache) (k : String) : Option Profile :=
  (cache.find? (fun e => e.fst == k)).map (fun e => e.snd)

/-- `cache.set(key, value)` on the profile key space. -/
def pcSet (cache : ProfileCache) (k : String) (v : Profile) : ProfileCache :=
  (k, v) :: cache

/-- `fetchProfile(login, accessToken)` from `src/lib/github.js`.
`userResult` and `orgResult` model the two remote lookups
(`users.getForUser`, then `orgs.get`); each `.catch(silentError)` turns a
failed lookup into `undefined`, embedded as `none`.  Returns the result,
the list of remote attempts issued (in order), and the updated cache. -/
def fetchProfile (cache : ProfileCache) (login : String)
    (userResult : Option Profile) (orgResult : Option Profile) :
    Option Profile × List LookupAttempt × ProfileCache :=
  let cacheKey := "profile_" ++ login
  match pcGet cache cacheKey with
  | some p => (some p, [], cache)
  | none =>
    match userResult with
    | some user =>
      if user.type ≠ "Organization" then
        (some user, [LookupAttempt.user login], pcSet cache cacheKey user)
      else
        match orgResult with
        | some org => (some org, [LookupAttempt.user login, LookupAttempt.org login],
            pcSet cache cacheKey org)
        | none => (none, [LookupAttempt.user login, LookupAttempt.org login], cache)
    | none =>
      match orgResult with
      | some org => (some org, [LookupAttempt.user login, LookupAttempt.org login],
          pcSet cache cacheKey org)
      | none => (none, [LookupAttempt.user login, LookupAttempt.org login], cache)

/-- The process-wide cache, restricted to the donated-token key space used
by `donateToken`. -/
abbrev TokenCache := List (String × List String)

/-- `cache.get(key)` on the token key space. -/
def tcGet (cache : TokenCache) (k : String) : Option (List String) :=
  (cache.find? (fun e => e.fst == k)).map (fun e => e.snd)

/-- `cache.set(key, value)` on the token key space. -/
def tcSet (cache : TokenCache) (k : String) (v : List String) : TokenCache :=
  (k, v) :: cache

/-- The donated-token pool: `cache.get('donatedTokens') || []`. -/
def donatedPool (cache : TokenCache) : List String :=
  (tcGet cache "donatedTokens").getD []

/-- `donateToken(accessToken)` from `src/lib/github.js`: append the token
to the pool only when `indexOf(accessToken) === -1` (absent — embedded as
`indexOf = length`), then persist the pool under the fixed key. -/
def donateToken (cache : TokenCache) (accessToken : String) : TokenCache :=
  let donatedTokens := donatedPool cache
  if donatedTokens.indexOf accessToken = donatedTokens.length then
    tcSet cache "donatedTokens" (donatedTokens ++ [accessToken])
  else cache

/-- A login contains no underscore — true of every real GitHub login
(logins are alphanumeric/hyphen only). -/
def noUnderscore (s : String) : Prop := '_' ∉ s.data

instance (s : String) : Decidable (noUnderscore s) :=
  inferInstanceAs (Decidable ('_' ∉ s.data))

/-- Cache invariant: every entry stored under a public repository key
`profile_repos_<L>` for an underscore-free login `L` holds only
repositories whose `private` flag is not `true`. -/
def pubClean (cache : RepoCache) : Prop :=
  ∀ L l, noUnderscore L → cacheGet cache (pubRepoKey L) = some l →
    ∀ r ∈ l, r.priv ≠ some true

/-- Cache invariant: every cached repository list holds only compactions
of provider records whose `fork` field is the boolean `false`. -/
def cacheNonFork (cache : RepoCache) : Prop :=
  ∀ k l, cacheGet cache k = some l →
    ∀ c ∈ l, ∃ raw : Repo, raw.fork = some (JsonVal.bool false) ∧ c = compactRepo raw

/- Concrete sample inputs. -/

/-- A provider record that lacks both `private` and `owner.login`. -/
def bareRepo : Repo :=
  { id := some 1
    name := some "r"
    owner := none
    full_name := some "x/r"
    default_branch := some "master"
    priv := none
    language := none
    fork := some (JsonVal.bool false)
    url := some "u" }

/-- A fully-populated private, non-fork provider record. -/
def fullRepo : Repo :=
  { id := some 2
    name := some "hello"
    owner := some { login := some "octocat", url := some "u" }
    full_name := some "octocat/hello"
    default_branch := some "master"
    priv := some true
    language := some "js"
    fork := some (JsonVal.bool false)
    url := some "u" }

/-- A public non-fork provider record. -/
def pubRepo : Repo :=
  { id := some 3
    name := some "world"
    owner := some { login := some "octocat", url := some "u" }
    full_name := some "octocat/world"
    default_branch := some "master"
    priv := some false
    language := some "js"
    fork := some (JsonVal.bool false)
    url := some "u" }

/-- An authenticated call for login `a` whose provider reveals one private
and one public repository. -/
def callAuth : Call :=
  { profile := { login := "a", type := "User" }
    token := some "T"
    provider := fun _ => [fullRepo, pubRepo]
    fuel := 9 }

/-- An anonymous call for the (invalid) login `a_T`. -/
def callAnonCollide : Call :=
  { profile := { login := "a_T", type := "User" }
    token := none
    provider := fun _ => []
    fuel := 9 }

/-- An anonymous call for the login `a`. -/
def callAnon : Call :=
  { profile := { login := "a", type := "User" }
    token := none
    provider := fun _ => []
    fuel := 9 }

/-- A provider that returns pages of exactly 100, 100 and 37 items. -/
def pagedProvider : Nat → List Repo :=
  fun page =>
    if page = 1 then List.replicate 100 pubRepo
    else if page = 2 then List.replicate 100 fullRepo
    else if page = 3 then List.replicate 37 pubRepo
    else []

/- Theorems. -/

/-- C2 counterexample: the claim says `compactRepo(r)` always has a boolean
`private` field and an `owner.login`, *even when `r` itself lacks them*.
It does not: lodash `pick` copies only fields present in the source, so
for `bareRepo` (no `private`, no `owner`) the compacted record has
`private` absent and `owner.login` absent. -/
theorem compactRepo_absent_fields_cex :
    (compactRepo bareRepo).priv = none ∧ (compactRepo bareRepo).owner.login = none :=
  ⟨rfl, rfl⟩

/-- C2 (amended): compaction preserves `owner.login` and a boolean
`private` whenever the provider record carries them — for every
provider-returned record `r` that has a boolean `private` field and an
`owner.login` field, the compacted record has the same boolean `private`
and the same `owner.login`; compaction never alters or drops these two
fields when present. -/
theorem compactRepo_preserves_fields (r : Repo) (b : Bool) (o : Owner) (lg : String)
    (hp : r.priv = some b) (ho : r.owner = some o) (hl : o.login = some lg) :
    (compactRepo r).priv = some b ∧ (compactRepo r).owner.login = some lg := by
  constructor
  · simpa [compactRepo] using hp
  · simp [compactRepo, ho, hl]

/-- Witness for `compactRepo_preserves_fields` at a concrete record. -/
theorem compactRepo_preserves_fields_witness :
    (compactRepo fullRepo).priv = some true ∧
    (compactRepo fullRepo).owner.login = some "octocat" :=
  compactRepo_preserves_fields fullRepo true { login := some "octocat", url := some "u" }
    "octocat" rfl rfl rfl

/-- C10: the fork filter `repos.filter(repo => repo.fork === false)` keeps
a record exactly when its `fork` field is present and is the boolean
`false`; a record whose `fork` is absent (`none`), `null`, `true`, or any
non-boolean value is dropped, not treated as a non-fork.  Both cache
writes and the returned list of `fetchReposForProfile` are built from
`forkFilter fetched`, so such records reach neither. -/
theorem forkFilter_exact_false (l : List Repo) (r : Repo) :
    r ∈ forkFilter l ↔ r ∈ l ∧ r.fork = some (JsonVal.bool false) := by
  simp [forkFilter, List.mem_filter]

/-- Pages `page, page+1, …, page+m-1` are full and page `page+m` is
short: the loop requests exactly the `m+1` pages `page … page+m` and
accumulates their concatenation. -/
theorem paginateAux_full_pages (provider : Nat → List Repo) :
    ∀ (m fuel page reqs : Nat) (acc : List Repo),
      (∀ j, j < m → (provider (page + j)).length = 100) →
      (provider (page + m)).length < 100 →
      m < fuel →
      paginateAux provider fuel page acc reqs
        = some (acc ++ ((List.range' page (m + 1)).map provider).flatten, reqs + (m + 1)) := by
  intro m
  induction m with
  | zero =>
    intro fuel page reqs acc _ hshort hfuel
    match fuel, hfuel with
    | fuel + 1, _ =>
      simp only [Nat.add_zero] at hshort
      simp [paginateAux, hshort, List.range'_succ]
  | succ m ih =>
    intro fuel page reqs acc hfull hshort hfuel
    cases fuel with
    | zero => omega
    | succ fuel =>
      have h0 : (provider page).length = 100 := by simpa using hfull 0 (Nat.succ_pos m)
      have hnot : ¬ (provider page).length < 100 := by omega
      have hrec := ih fuel (page + 1) (reqs + 1) (acc ++ provider page)
        (fun j hj => by
          have := hfull (j + 1) (by omega)
          rwa [show page + (j + 1) = page + 1 + j by omega] at this)
        (by rwa [show page + 1 + m = page + (m + 1) by omega])
        (by omega)
      calc paginateAux provider (fuel + 1) page acc reqs
          = paginateAux provider fuel (page + 1) (acc ++ provider page) (reqs + 1) := by
            simp [paginateAux, hnot]
        _ = some (acc ++ provider page
              ++ ((List.range' (page + 1) (m + 1)).map provider).flatten, reqs + 1 + (m + 1)) :=
            hrec
        _ = some (acc ++ ((List.range' page (m + 1 + 1)).map provider).flatten,
              reqs + (m + 1 + 1)) := by
            conv_rhs => rw [List.range'_succ]
            rw [show reqs + (m + 1 + 1) = reqs + 1 + (m + 1) by omega]
            simp [List.append_assoc]

/-- C7: the repository-listing loop requests 100 items per page, starting
at page 1, continues exactly while the last page was full, and stops at
the first page whose length is below the page size: if pages `1 … k-1`
are full (length 100) and page `k` is the first short page, exactly `k`
page requests are issued and the concatenation of pages `1 … k` is
accumulated for return/caching. -/
theorem fetchRepos_pagination (provider : Nat → List Repo) (k fuel : Nat)
    (hk : 0 < k)
    (hfull : ∀ j, j < k - 1 → (provider (j + 1)).length = 100)
    (hshort : (provider k).length < 100)
    (hfuel : k ≤ fuel) :
    paginate provider fuel = some (((List.range' 1 k).map provider).flatten, k) := by
  have h := paginateAux_full_pages provider (k - 1) fuel 1 0 []
    (fun j hj => by
      have := hfull j hj
      rwa [show 1 + j = j + 1 by omega])
    (by rwa [show 1 + (k - 1) = k by omega])
    (by omega)
  rw [show k - 1 + 1 = k by omega] at h
  simpa [paginate] using h

set_option maxRecDepth 4000 in
/-- Witness for `fetchRepos_pagination`: a provider returning pages of
exactly 100, 100 and 37 items leads to exactly 3 page requests and 237
accumulated items. -/
theorem fetchRepos_pagination_witness :
    paginate pagedProvider 5 = some (((List.range' 1 3).map pagedProvider).flatten, 3) ∧
    (((List.range' 1 3).map pagedProvider).flatten).length = 237 := by
  refine ⟨fetchRepos_pagination pagedProvider 3 5 (by omega) ?_ ?_ (by omega), ?_⟩
  · intro j hj
    interval_cases j <;> simp [pagedProvider]
  · simp [pagedProvider]
  · rw [show List.range' 1 3 = [1, 2, 3] from rfl]
    simp [pagedProvider]

/-- Storing a pool under the fixed key makes it the current pool. -/
theorem donatedPool_tcSet (cache : TokenCache) (v : List String) :
    donatedPool (tcSet cache "donatedTokens" v) = v := by
  simp [donatedPool, tcGet, tcSet]

/-- One donation appends the token exactly when it is not yet present. -/
theorem donatedPool_donate (cache : TokenCache) (t : String) :
    donatedPool (donateToken cache t)
      = if t ∈ donatedPool cache then donatedPool cache
        else donatedPool cache ++ [t] := by
  by_cases h : t ∈ donatedPool cache
  · have hi : ¬ (donatedPool cache).indexOf t = (donatedPool cache).length := fun he =>
      (List.indexOf_eq_length.mp he) h
    simp [donateToken, hi, h]
  · have hi : (donatedPool cache).indexOf t = (donatedPool cache).length :=
      List.indexOf_eq_length.mpr h
    simp [donateToken, hi, h, donatedPool_tcSet]

/-- The pool reached by any sequence of donations has no duplicates. -/
theorem donatedPool_nodup (ds : List String) :
    ∀ cache : TokenCache, (donatedPool cache).Nodup →
      (donatedPool (ds.foldl donateToken cache)).Nodup := by
  induction ds with
  | nil => exact fun _ h => h
  | cons d ds ih =>
    intro c h
    refine ih _ ?_
    rw [donatedPool_donate]
    split
    · exact h
    · next hmem => simp [List.nodup_append, h, hmem]

/-- A donated token is in the pool afterwards. -/
theorem mem_donatedPool_donate (cache : TokenCache) (t : String) :
    t ∈ donatedPool (donateToken cache t) := by
  rw [donatedPool_donate]
  split
  · assumption
  · simp

/-- C9: `donateToken` has set semantics keyed on the literal token value —
in any pool state reachable by donations (`prior` is all earlier
donations, starting from an empty cache), donating the same token twice
leaves the pool containing that token exactly once. -/
theorem donateToken_set_semantics (prior : List String) (t : String) :
    (donatedPool
      (donateToken (donateToken (prior.foldl donateToken ([] : TokenCache)) t) t)).count t
      = 1 := by
  have hnd0 : (donatedPool ([] : TokenCache)).Nodup := by simp [donatedPool, tcGet]
  have hnd : (donatedPool (prior.foldl donateToken ([] : TokenCache))).Nodup :=
    donatedPool_nodup prior _ hnd0
  have hnd1 : (donatedPool
      (donateToken (prior.foldl donateToken ([] : TokenCache)) t)).Nodup := by
    have h := donatedPool_nodup [t] _ hnd
    simpa using h
  have hmem : t ∈ donatedPool (donateToken (prior.foldl donateToken ([] : TokenCache)) t) :=
    mem_donatedPool_donate _ t
  rw [donatedPool_donate, if_pos hmem]
  exact List.count_eq_one_of_mem hnd1 hmem

/-- C6: for a login not in the cache, a failed user lookup (silently
caught) does not abort the organisation lookup: the result is whatever
the organisation lookup yields; exactly two remote attempts are issued,
user first then organisation; and when both fail the result is `none`
(no error) and the cache is untouched. -/
theorem fetchProfile_fallback_null (cache : ProfileCache) (login : String)
    (orgResult : Option Profile)
    (hmiss : pcGet cache ("profile_" ++ login) = none) :
    (fetchProfile cache login none orgResult).fst = orgResult ∧
    (fetchProfile cache login none orgResult).snd.fst
      = [LookupAttempt.user login, LookupAttempt.org login] ∧
    (orgResult = none → (fetchProfile cache login none orgResult).snd.snd = cache) := by
  cases orgResult <;> simp [fetchProfile, hmiss]

/-- Witness for `fetchProfile_fallback_null`: an unresolvable login yields
`none` after exactly the two attempts, user then organisation. -/
theorem fetchProfile_fallback_null_witness :
    (fetchProfile [] "ghost" none none).fst = none ∧
    (fetchProfile [] "ghost" none none).snd.fst
      = [LookupAttempt.user "ghost", LookupAttempt.org "ghost"] :=
  ⟨(fetchProfile_fallback_null [] "ghost" none rfl).1,
   (fetchProfile_fallback_null [] "ghost" none rfl).2.1⟩

/-- A non-empty string is truthy. -/
theorem truthy_some_of_ne (t : String) (h : t ≠ "") : truthy (some t) = true := by
  have he : t.isEmpty = false := by
    cases hs : t.isEmpty
    · rfl
    · exact absurd ((String.isEmpty_iff t).mp hs) h
  simp [truthy, he]

/-- C3: credential precedence in `getOctokit` — a caller-supplied token is
used as-is (the pool and guest token are never consulted: the result does
not depend on them); with no caller token and a non-empty pool of
well-formed tokens, the element at the random index is used and is a pool
member (every index picks the corresponding element, so each pool element
is reachable — the draw is uniform over indices); with no caller token
and an empty pool, the guest token is used when truthy, else no token at
all.  The resolver is a total function: no error is ever raised, and
`none` is a valid outcome. -/
theorem getOctokit_token_precedence (pool : List String) (guest : Option String) (rand : Nat) :
    (∀ t : String, t ≠ "" → getOctokitToken (some t) pool guest rand = some t) ∧
    (pool ≠ [] → (∀ x ∈ pool, x ≠ "") →
      getOctokitToken none pool guest rand = some (pool.getD (rand % pool.length) "") ∧
      pool.getD (rand % pool.length) "" ∈ pool) ∧
    (∀ x ∈ pool, x ≠ "" → ∃ i, getOctokitToken none pool guest i = some x) ∧
    (getOctokitToken none [] guest rand = if truthy guest = true then guest else none) := by
  refine ⟨?_, ?_, ?_, ?_⟩
  · intro t ht
    simp [getOctokitToken, truthy_some_of_ne t ht]
  · intro hne hwf
    have hlen : 0 < pool.length := List.length_pos.mpr hne
    have hidx : rand % pool.length < pool.length := Nat.mod_lt _ hlen
    have hmem : pool.getD (rand % pool.length) "" ∈ pool := by
      rw [List.getD_eq_getElem pool "" hidx]
      exact List.getElem_mem hidx
    have htr : truthy (some (pool.getD (rand % pool.length) "")) = true :=
      truthy_some_of_ne _ (hwf _ hmem)
    rw [List.getD_eq_getElem?_getD] at htr
    refine ⟨?_, hmem⟩
    rw [List.getD_eq_getElem?_getD]
    simp only [truthy] at htr
    simp [getOctokitToken, truthy, hlen, htr]
  · intro x hx hxne
    refine ⟨pool.indexOf x, ?_⟩
    have hlt : pool.indexOf x < pool.length := List.indexOf_lt_length.mpr hx
    have hlen : 0 < pool.length := Nat.lt_of_le_of_lt (Nat.zero_le _) hlt
    have hgd : pool.getD (pool.indexOf x % pool.length) "" = x := by
      rw [Nat.mod_eq_of_lt hlt, List.getD_eq_getElem pool "" hlt]
      exact List.getElem_indexOf hlt
    rw [List.getD_eq_getElem?_getD] at hgd
    have hne : x.isEmpty = false := by
      cases hs : x.isEmpty
      · rfl
      · exact absurd ((String.isEmpty_iff x).mp hs) hxne
    simp [getOctokitToken, truthy, hlen, hgd, hne]
  · cases guest <;> simp [getOctokitToken, truthy]

/-- Witness for `getOctokit_token_precedence` at concrete inputs: a caller
token wins; with no caller token the pool element at index 5 mod 2 = 1 is
used; with an empty pool the guest token is used. -/
theorem getOctokit_token_precedence_witness :
    getOctokitToken (some "mine") ["x", "y"] (some "g") 5 = some "mine" ∧
    getOctokitToken none ["x", "y"] (some "g") 5 = some "y" ∧
    getOctokitToken none [] (some "g") 5 = some "g" := by
  refine ⟨(getOctokit_token_precedence ["x", "y"] (some "g") 5).1 "mine" (by decide), ?_, ?_⟩
  · have h := ((getOctokit_token_precedence ["x", "y"] (some "g") 5).2.1 (by decide)
      (by decide)).1
    exact h.trans (by decide)
  · exact ((getOctokit_token_precedence [] (some "g") 5).2.2.2).trans (by decide)

/-- C4: `fetchFileFromRepo` routing — when the repository has no known
default branch (falsy) or is marked `private === true`, the single
request issued is the authenticated `repos.getContent` operation (whose
base64 payload is decoded to text; `authResult` is that decoded outcome)
and no raw-CDN request is made; otherwise the single request issued is an
unauthenticated GET of `<host>/<full_name>/<default_branch>/<path>` and
no authenticated call is made. -/
theorem fetchFile_routing (repo : CompactRepo) (path : String)
    (rawStatus : Nat) (rawBody : String) (authResult : Except String String) :
    ((truthy repo.default_branch = false ∨ repo.priv = some true) →
      fetchFileFromRepo repo path rawStatus rawBody authResult
        = ([FileRequest.octokitContent repo.owner.login repo.name path], authResult)) ∧
    (truthy repo.default_branch = true → repo.priv ≠ some true →
      (fetchFileFromRepo repo path rawStatus rawBody authResult).fst
        = [FileRequest.rawFetch (baseRawUrl ++ ("/" ++ jsStr repo.full_name ++ "/"
            ++ jsStr repo.default_branch ++ "/" ++ path))]) := by
  constructor
  · rintro (h | h) <;> simp [fetchFileFromRepo, h]
  · intro h1 h2
    simp [fetchFileFromRepo, h1, h2]

/-- Witness for `fetchFile_routing`: a private repository routes to the
authenticated content call; a public one with a default branch routes to
the raw URL. -/
theorem fetchFile_routing_witness :
    fetchFileFromRepo (compactRepo fullRepo) "package.json" 200 "body" (Except.ok "auth")
      = ([FileRequest.octokitContent (some "octocat") (some "hello") "package.json"],
         Except.ok "auth") ∧
    (fetchFileFromRepo (compactRepo pubRepo) "package.json" 200 "body"
        (Except.ok "auth")).fst
      = [FileRequest.rawFetch
          "https://raw.githubusercontent.com/octocat/world/master/package.json"] := by
  constructor
  · exact ((fetchFile_routing (compactRepo fullRepo) "package.json" 200 "body"
      (Except.ok "auth")).1 (Or.inr rfl)).trans (by rfl)
  · exact ((fetchFile_routing (compactRepo pubRepo) "package.json" 200 "body"
      (Except.ok "auth")).2 (by decide) (by decide)).trans (by rfl)

/-- C5: on the public raw-content path, a non-200 status yields an error
whose message names the path and the URL attempted
(`Can't fetch <path> from <relativeUrl>.`), with a single raw request
issued — no retry and no fallback to the authenticated path; a 200 status
yields the response body as text. -/
theorem fetchFile_raw_failure (repo : CompactRepo) (path : String)
    (rawStatus : Nat) (rawBody : String) (authResult : Except String String)
    (hbranch : truthy repo.default_branch = true) (hpriv : repo.priv ≠ some true) :
    (rawStatus ≠ 200 →
      fetchFileFromRepo repo path rawStatus rawBody authResult
        = ([FileRequest.rawFetch (baseRawUrl ++ ("/" ++ jsStr repo.full_name ++ "/"
              ++ jsStr repo.default_branch ++ "/" ++ path))],
           Except.error ("Can\x27t fetch " ++ path ++ " from "
             ++ ("/" ++ jsStr repo.full_name ++ "/" ++ jsStr repo.default_branch
               ++ "/" ++ path) ++ "."))) ∧
    (rawStatus = 200 →
      (fetchFileFromRepo repo path rawStatus rawBody authResult).snd
        = Except.ok rawBody) := by
  constructor
  · intro hs
    simp [fetchFileFromRepo, hbranch, hpriv, hs]
  · intro hs
    simp [fetchFileFromRepo, hbranch, hpriv, hs]

/-- Witness for `fetchFile_raw_failure`: a 404 from the raw endpoint on a
public repository yields the descriptive failure, naming the path and the
relative URL. -/
theorem fetchFile_raw_failure_witness :
    fetchFileFromRepo (compactRepo pubRepo) "package.json" 404 "nope" (Except.ok "auth")
      = ([FileRequest.rawFetch
            "https://raw.githubusercontent.com/octocat/world/master/package.json"],
         Except.error "Can\x27t fetch package.json from /octocat/world/master/package.json.") :=
  ((fetchFile_raw_failure (compactRepo pubRepo) "package.json" 404 "nope" (Except.ok "auth")
    (by decide) (by decide)).1 (by decide)).trans (by rfl)

/-- Reading back the key just written. -/
theorem cacheGet_cacheSet_self (cache : RepoCache) (k : String) (v : List CompactRepo) :
    cacheGet (cacheSet cache k v) k = some v := by
  simp [cacheGet, cacheSet]

/-- Reading another key is unaffected by a write. -/
theorem cacheGet_cacheSet_ne (cache : RepoCache) (k k2 : String) (v : List CompactRepo)
    (h : k ≠ k2) : cacheGet (cacheSet cache k v) k2 = cacheGet cache k2 := by
  simp [cacheGet, cacheSet, List.find?_cons, h]

/-- Membership in the public-subset filter. -/
theorem publicFilter_mem (l : List CompactRepo) (r : CompactRepo) :
    r ∈ publicFilter l ↔ r ∈ l ∧ r.priv = some false := by
  simp [publicFilter, List.mem_filter]

/-- Every element of the filtered, compacted list originates from a
non-fork provider record. -/
theorem mem_filtered_nonFork (fetched : List Repo) (c : CompactRepo)
    (hc : c ∈ (forkFilter fetched).map compactRepo) :
    ∃ raw : Repo, raw.fork = some (JsonVal.bool false) ∧ c = compactRepo raw := by
  rcases List.mem_map.mp hc with ⟨raw, hraw, heq⟩
  simp only [forkFilter, List.mem_filter, beq_iff_eq] at hraw
  exact ⟨raw, hraw.2, heq.symm⟩

/-- The empty cache trivially satisfies the non-fork invariant. -/
theorem cacheNonFork_nil : cacheNonFork ([] : RepoCache) := by
  intro k l hget
  simp [cacheGet] at hget

/-- One call: its result (when produced) and the updated cache contain
only compactions of non-fork provider records, given the invariant. -/
theorem stepCall_nonFork (cache : RepoCache) (c : Call) (h : cacheNonFork cache) :
    (∀ l, (stepCall cache c).fst = some l →
      ∀ r ∈ l, ∃ raw : Repo, raw.fork = some (JsonVal.bool false) ∧ r = compactRepo raw) ∧
    cacheNonFork (stepCall cache c).snd := by
  unfold stepCall fetchReposForProfile
  split
  · exact ⟨fun l hl => h _ l hl, h⟩
  · split
    · exact ⟨fun l hl => h _ l hl, h⟩
    · split
      · exact ⟨fun l hl => Option.noConfusion hl, h⟩
      · next fetched n heq =>
        constructor
        · intro l hl r hr
          have hl2 : (if truthy c.token = true then (forkFilter fetched).map compactRepo
              else publicFilter ((forkFilter fetched).map compactRepo)) = l :=
            Option.some.inj hl
          by_cases ht : truthy c.token = true
          · rw [if_pos ht] at hl2
            rw [← hl2] at hr
            exact mem_filtered_nonFork fetched r hr
          · rw [if_neg ht] at hl2
            rw [← hl2] at hr
            exact mem_filtered_nonFork fetched r ((publicFilter_mem _ r).mp hr).1
        · intro k l hget r hr
          by_cases hk : pubRepoKey c.profile.login = k
          · rw [← hk, cacheGet_cacheSet_self] at hget
            have hl := Option.some.inj hget
            rw [← hl] at hr
            exact mem_filtered_nonFork fetched r ((publicFilter_mem _ r).mp hr).1
          · rw [cacheGet_cacheSet_ne _ _ _ _ hk] at hget
            by_cases hk2 : privRepoKey c.profile.login c.token = k
            · rw [← hk2, cacheGet_cacheSet_self] at hget
              have hl := Option.some.inj hget
              rw [← hl] at hr
              exact mem_filtered_nonFork fetched r hr
            · rw [cacheGet_cacheSet_ne _ _ _ _ hk2] at hget
              exact h k l hget r hr

/-- The non-fork invariant is preserved by any interleaved call sequence. -/
theorem runCalls_nonFork (calls : List Call) :
    ∀ cache, cacheNonFork cache → cacheNonFork (runCalls cache calls) := by
  induction calls with
  | nil => exact fun _ h => h
  | cons p ps ih =>
    intro cache h
    simp only [runCalls]
    exact ih _ (stepCall_nonFork cache p h).2

/-- C8: for every profile, token and interleaved call history, the list
returned by `fetchReposForProfile` — and every list it has written to the
cache — contains only compactions of provider records whose `fork` field
is the boolean `false`: forked repositories are dropped entirely and no
returned or cached entry has `fork === true`. -/
theorem listRepositories_no_forks (past : List Call) (c : Call) (l : List CompactRepo)
    (hres : (stepCall (runCalls [] past) c).fst = some l) :
    (∀ r ∈ l, ∃ raw : Repo, raw.fork = some (JsonVal.bool false) ∧ r = compactRepo raw) ∧
    (∀ k l2, cacheGet (stepCall (runCalls [] past) c).snd k = some l2 →
      ∀ r ∈ l2, ∃ raw : Repo, raw.fork = some (JsonVal.bool false) ∧ r = compactRepo raw) := by
  have hinv := runCalls_nonFork past [] cacheNonFork_nil
  have hstep := stepCall_nonFork _ c hinv
  exact ⟨hstep.1 l hres, hstep.2⟩

/-- Witness for `listRepositories_no_forks` at a concrete authenticated
call whose provider returns two non-fork repositories. -/
theorem listRepositories_no_forks_witness :
    ∃ raw : Repo, raw.fork = some (JsonVal.bool false)
      ∧ compactRepo fullRepo = compactRepo raw :=
  ((listRepositories_no_forks [] callAuth [compactRepo fullRepo, compactRepo pubRepo]
    (by decide)).1) (compactRepo fullRepo) (by decide)

/-- A private repository key (`profile_repos_<login>_<token>`) never
equals a public repository key (`profile_repos_<L>`) when the login `L`
contains no underscore: the private key always carries an underscore
after the shared prefix and the login. -/
theorem privRepoKey_ne_pubRepoKey (login : String) (tok : Option String) (L : String)
    (hL : noUnderscore L) : privRepoKey login tok ≠ pubRepoKey L := by
  intro h
  apply hL
  have hd := congrArg String.data h
  simp only [privRepoKey, pubRepoKey, String.data_append, List.append_assoc] at hd
  have h2 := List.append_cancel_left hd
  rw [← h2]
  exact List.mem_append_right _ (List.mem_append_left _ (by decide))

/-- The empty cache trivially satisfies the public-cleanliness invariant. -/
theorem pubClean_nil : pubClean ([] : RepoCache) := by
  intro L l hL hget
  simp [cacheGet] at hget

/-- One call — authenticated or not, for any login — preserves the
public-cleanliness invariant: the only write to a public key is the
`private === false` subset, and private-key writes never collide with a
public key of an underscore-free login. -/
theorem stepCall_pubClean (cache : RepoCache) (c : Call) (h : pubClean cache) :
    pubClean (stepCall cache c).snd := by
  unfold stepCall fetchReposForProfile
  split
  · exact h
  · split
    · exact h
    · split
      · exact h
      · next fetched n heq =>
        intro L l hL hget r hr
        by_cases hk : pubRepoKey c.profile.login = pubRepoKey L
        · rw [← hk, cacheGet_cacheSet_self] at hget
          have hl := Option.some.inj hget
          rw [← hl] at hr
          have hp := ((publicFilter_mem _ r).mp hr).2
          simp [hp]
        · rw [cacheGet_cacheSet_ne _ _ _ _ hk] at hget
          rw [cacheGet_cacheSet_ne _ _ _ _ (privRepoKey_ne_pubRepoKey _ _ L hL)] at hget
          exact h L l hL hget r hr

/-- The public-cleanliness invariant is preserved by any interleaved call
sequence. -/
theorem runCalls_pubClean (calls : List Call) :
    ∀ cache, pubClean cache → pubClean (runCalls cache calls) := by
  induction calls with
  | nil => exact fun _ h => h
  | cons p ps ih =>
    intro cache h
    simp only [runCalls]
    exact ih _ (stepCall_pubClean cache p h)

/-- An anonymous call for an underscore-free login only ever returns
repositories whose `private` flag is not `true`, given the invariant. -/
theorem stepCall_anon_clean (cache : RepoCache) (c : Call) (h : pubClean cache)
    (htok : truthy c.token = false) (hlogin : noUnderscore c.profile.login)
    (l : List CompactRepo) (hres : (stepCall cache c).fst = some l) :
    ∀ r ∈ l, r.priv ≠ some true := by
  unfold stepCall fetchReposForProfile at hres
  rw [htok] at hres
  simp only [Bool.false_and, Bool.not_false, Bool.true_and, Bool.false_eq_true,
    if_false] at hres
  by_cases hHas : cacheHas cache (pubRepoKey c.profile.login) = true
  · rw [if_pos hHas] at hres
    exact fun r hr => h _ l hlogin hres r hr
  · rw [if_neg hHas] at hres
    cases hP : paginate c.provider c.fuel with
    | none =>
      rw [hP] at hres
      exact absurd hres (by simp)
    | some pr =>
      obtain ⟨fetched, n⟩ := pr
      rw [hP] at hres
      have hl : publicFilter ((forkFilter fetched).map compactRepo) = l :=
        Option.some.inj hres
      intro r hr
      rw [← hl] at hr
      have hp := ((publicFilter_mem _ r).mp hr).2
      simp [hp]

/-- C1 (amended): public-cache isolation holds for every profile whose
login contains no underscore (true of all real GitHub logins): under any
interleaved call history starting from an empty cache, a call to
`fetchReposForProfile` made without an access token never returns a
repository with `private === true` — every public-keyed cache entry only
ever holds the `private === false` subset, and a token-bearing call never
reads or writes the public entry with anything else. -/
theorem fetchRepos_public_isolation (past : List Call) (c : Call)
    (htok : truthy c.token = false) (hlogin : noUnderscore c.profile.login)
    (l : List CompactRepo) (hres : (stepCall (runCalls [] past) c).fst = some l) :
    ∀ r ∈ l, r.priv ≠ some true :=
  stepCall_anon_clean _ c (runCalls_pubClean past [] pubClean_nil) htok hlogin l hres

/-- C1 counterexample: for unrestricted logins the claim is false.  The
public key of login `a_T` is the string `profile_repos_a_T`, which is
also the private key of login `a` with token `T`.  After an authenticated
call for `a` (whose provider reveals a `private === true` repository), an
anonymous call for profile `a_T` is served that private-keyed entry from
the cache and returns the private repository.  (Such logins cannot occur
on GitHub — logins never contain an underscore — which is what the
amended theorem assumes.) -/
theorem fetchRepos_public_isolation_cex :
    (stepCall (runCalls [] [callAuth]) callAnonCollide).fst
      = some [compactRepo fullRepo, compactRepo pubRepo] ∧
    (compactRepo fullRepo).priv = some true :=
  ⟨by decide, rfl⟩

/-- Witness for `fetchRepos_public_isolation`: after an authenticated call
for `a`, an anonymous call for `a` is served the public subset, and the
repository it contains has `private` not `true`. -/
theorem fetchRepos_public_isolation_witness :
    (compactRepo pubRepo).priv ≠ some true :=
  fetchRepos_public_isolation [callAuth] callAnon (by decide) (by decide)
    [compactRepo pubRepo] (by decide) (compactRepo pubRepo) (by decide)
